import Mathlib

/-!
Verification of `deploy/bin/prune-ami-snapshots.py`.

The script scans every region of an AWS account for EBS snapshots whose
description references an AMI that is no longer registered, reports per-region
and global statistics, and optionally deletes the orphaned snapshots.

This file gives a shallow embedding of the script:
* the two anchored description regexes (`RE_CREATED_AMI`, `RE_COPIED_AMI`)
  become executable matching functions on character lists;
* Python dicts become association lists with replace-on-insert semantics;
* Python sets become duplicate-free lists built with member-checking insert;
* `orphaned_ami_snapshots` becomes a pure function from the region inputs
  (the snapshot listing and the image listing) to a result value together
  with the trace of API calls it performs;
* the aggregation loop of `main`, the deletion loop, and the cost formula
  become pure functions over lists of region inputs.
-/

/-! ### The description regexes

`RE_CREATED_AMI = re.compile("Created by CreateImage\([^\)]+\) for (?P<ami>[^\s+]+)")`
`RE_COPIED_AMI = re.compile("Copied for DestinationAmi (?P<ami>[^\s+]+)")`

Both are used through `.match`, which anchors at the start of the string and
does not require consuming the whole string.  In `RE_CREATED_AMI` the greedy
class `[^\)]+` can never cross a closing parenthesis, so the parenthesis of the
pattern necessarily consumes the first closing parenthesis of the subject, with
no further backtracking possible.  The group `[^\s+]+` greedily takes the
longest nonempty run of characters that are neither ASCII whitespace nor a
plus sign. -/

/-- Python `\s` for byte strings: space, tab, newline, carriage return,
vertical tab, form feed. -/
def pyIsSpace (c : Char) : Bool :=
  c = ' ' || c = '\t' || c = '\n' || c = '\r' || c = '\x0b' || c = '\x0c'

/-- A character the group `[^\s+]+` can consume. -/
def amiChar (c : Char) : Bool :=
  !(pyIsSpace c) && !(c = '+')

/-- Consume an exact literal from the front of the subject, returning the
remainder on success.  This is how an anchored regex consumes literal text. -/
def chopLit : List Char → List Char → Option (List Char)
  | [], cs => some cs
  | _ :: _, [] => none
  | p :: ps, c :: cs => if c = p then chopLit ps cs else none

/-- The group `(?P<ami>[^\s+]+)`: the longest nonempty run of `amiChar`
characters at the front of the remainder. -/
def amiGroup (cs : List Char) : Option (List Char) :=
  let g := cs.takeWhile amiChar
  if g.isEmpty then none else some g

/-- Matching `RE_COPIED_AMI` against the start of the subject, followed by
extraction of the ami group, on char lists. -/
def copiedAmiMatchL (cs : List Char) : Option (List Char) :=
  match chopLit "Copied for DestinationAmi ".toList cs with
  | some rest => amiGroup rest
  | none => none

/-- Matching `RE_CREATED_AMI` against the start of the subject, followed by
extraction of the ami group, on char lists.
`[^\)]+` takes everything up to the first closing parenthesis (at least one
character), the literal parenthesis consumes it, then ` for ` and the group. -/
def createdAmiMatchL (cs : List Char) : Option (List Char) :=
  match chopLit "Created by CreateImage(".toList cs with
  | some rest =>
    let inner := rest.takeWhile (fun c => !(c = ')'))
    if inner.isEmpty then none
    else
      match rest.drop inner.length with
      | ')' :: rest2 =>
        match chopLit " for ".toList rest2 with
        | some rest3 => amiGroup rest3
        | none => none
      | _ => none
  | none => none

/-- String-level form of the `RE_CREATED_AMI` match. -/
def createdAmiMatch (desc : String) : Option String :=
  (createdAmiMatchL desc.toList).map List.asString

/-- String-level form of the `RE_COPIED_AMI` match. -/
def copiedAmiMatch (desc : String) : Option String :=
  (copiedAmiMatchL desc.toList).map List.asString

example : createdAmiMatch "Created by CreateImage(i-123) for ami-0001" =
    some "ami-0001" := by decide
example : copiedAmiMatch "Copied for DestinationAmi ami-0003 from somewhere" =
    some "ami-0003" := by decide
example : createdAmiMatch "random text" = none := by decide
example : copiedAmiMatch "Created by CreateImage(i-123) for ami-0001" = none := by
  decide

/-! ### Data model -/

/-- One element of the `describe_snapshots` response, restricted to the
fields the script reads: `SnapshotId`, `Description`, `VolumeSize`,
`StartTime`. -/
structure Snapshot where
  snapshotId : String
  description : String
  volumeSize : Nat
  startTime : String
deriving DecidableEq, Repr

/-- One element of the `describe_images` response; the script reads only
`ImageId`. -/
structure Image where
  imageId : String
deriving DecidableEq, Repr

/-! ### Python dicts and sets

A Python dict is modelled as an association list whose insert replaces the
value of an existing key in place; by construction the key list of every dict
built this way is duplicate-free.  A Python set is modelled as a
duplicate-free list built with a member-checking insert. -/

/-- Dict lookup: first binding of the key wins (keys are unique anyway). -/
def dlook {α : Type} (d : List (String × α)) (k : String) : Option α :=
  match d with
  | [] => none
  | (k2, v) :: rest => if k2 = k then some v else dlook rest k

/-- Dict insert with replace-on-existing-key semantics. -/
def dinsert {α : Type} (k : String) (v : α) (d : List (String × α)) :
    List (String × α) :=
  match d with
  | [] => [(k, v)]
  | (k2, v2) :: rest =>
    if k2 = k then (k, v) :: rest else (k2, v2) :: dinsert k v rest

/-- The keys of a dict. -/
def dkeys {α : Type} (d : List (String × α)) : List String :=
  d.map Prod.fst

/-- Set insert (`set.add`): append the element unless already present. -/
def sinsert (x : String) (s : List String) : List String :=
  if x ∈ s then s else s ++ [x]

/-! ### The Snapshot Scanner (`orphaned_ami_snapshots`) -/

/-- The AWS API requests the script can issue. -/
inductive ApiCall where
  | describeSnapshots
  | describeImages
deriving DecidableEq, Repr

/-- The per-region result dict.  The early-return branch of
`orphaned_ami_snapshots` produces a dict holding nothing but the region name
and an empty flag; the normal branch carries every field of the full result
dict. -/
inductive RegionResult where
  | empty (region : String)
  | full (region : String) (amiCount : Nat) (snapshotCount : Nat)
      (snapshotToAmi : List (String × String))
      (snapshotsById : List (String × Snapshot))
      (snapshotsSize : Nat) (snapshotsAmiSize : Nat)
      (orphanedSnapshots : List String)
      (orphanedSize : Nat)
deriving DecidableEq, Repr

/-- The dict assignment of snapshot under its SnapshotId, over the loop. -/
def buildSnapshotsById (snapshots : List Snapshot) : List (String × Snapshot) :=
  snapshots.foldl (fun d s => dinsert s.snapshotId s d) []

/-- The two pattern applications of the loop body: a `RE_CREATED_AMI` match
inserts first, then a `RE_COPIED_AMI` match inserts (overwriting). -/
def snapshotToAmiStep (d : List (String × String)) (s : Snapshot) :
    List (String × String) :=
  let d1 :=
    match createdAmiMatch s.description with
    | some a => dinsert s.snapshotId a d
    | none => d
  match copiedAmiMatch s.description with
  | some a => dinsert s.snapshotId a d1
  | none => d1

/-- The dict `snapshot_to_ami` accumulated over the loop. -/
def buildSnapshotToAmi (snapshots : List Snapshot) : List (String × String) :=
  snapshots.foldl snapshotToAmiStep []

/-- The set of ImageId values added over the image loop. -/
def amisOf (images : List Image) : List String :=
  images.foldl (fun s i => sinsert i.imageId s) []

/-- The VolumeSize of the snapshot stored under a key, with 0 for a missing
key (the script never looks up a missing key, which is proved below). -/
def volOf (d : List (String × Snapshot)) (sid : String) : Nat :=
  match dlook d sid with
  | some s => s.volumeSize
  | none => 0

/-- The set difference of the `snapshot_to_ami` value set and the ami set. -/
def unknownAmisOf (snapshots : List Snapshot) (images : List Image) :
    List String :=
  (((buildSnapshotToAmi snapshots).map Prod.snd).dedup).filter
    (fun a => !(a ∈ amisOf images))

/-- The set comprehension over the dict items: the snapshot ids whose mapped
image id lies in `unknownAmisOf`. -/
def orphansOf (snapshots : List Snapshot) (images : List Image) : List String :=
  ((buildSnapshotToAmi snapshots).filter
    (fun p => p.2 ∈ unknownAmisOf snapshots images)).map Prod.fst

/-- The sum of the VolumeSize of the snapshots named by `orphansOf`. -/
def orphSizeOf (snapshots : List Snapshot) (images : List Image) : Nat :=
  ((orphansOf snapshots images).map
    (fun sid => volOf (buildSnapshotsById snapshots) sid)).sum

/-- The scanner `orphaned_ami_snapshots(region, owner_id)`, as a function of the data the
two API calls would return; the second component is the trace of API calls the
function issues.  When the snapshot listing is empty it returns the empty
marker without calling `describe_images`. -/
def orphaned_ami_snapshots (region : String) (snapshots : List Snapshot)
    (images : List Image) : RegionResult × List ApiCall :=
  if snapshots.isEmpty then
    (.empty region, [.describeSnapshots])
  else
    (.full region images.length snapshots.length
      (buildSnapshotToAmi snapshots)
      (buildSnapshotsById snapshots)
      ((snapshots.map Snapshot.volumeSize).sum)
      (((dkeys (buildSnapshotToAmi snapshots)).map
        (fun sid => volOf (buildSnapshotsById snapshots) sid)).sum)
      (orphansOf snapshots images) (orphSizeOf snapshots images),
      [.describeSnapshots, .describeImages])

/-- The result component of the scan. -/
def scanResult (region : String) (snapshots : List Snapshot)
    (images : List Image) : RegionResult :=
  (orphaned_ami_snapshots region snapshots images).1

/-- The API-call trace of the scan. -/
def scanCalls (region : String) (snapshots : List Snapshot)
    (images : List Image) : List ApiCall :=
  (orphaned_ami_snapshots region snapshots images).2

/-! ### Result accessors -/

/-- The region name of a result. -/
def RegionResult.regionName : RegionResult → String
  | .empty r => r
  | .full r _ _ _ _ _ _ _ _ => r

/-- Whether the result is the empty marker. -/
def RegionResult.isEmptyMarker : RegionResult → Bool
  | .empty _ => true
  | .full _ _ _ _ _ _ _ _ _ => false

/-- The `snapshot_to_ami` field (empty for the empty marker). -/
def RegionResult.s2a : RegionResult → List (String × String)
  | .empty _ => []
  | .full _ _ _ m _ _ _ _ _ => m

/-- The `snapshots` field (empty for the empty marker). -/
def RegionResult.snapsById : RegionResult → List (String × Snapshot)
  | .empty _ => []
  | .full _ _ _ _ d _ _ _ _ => d

/-- The `snapshots_size` field (0 for the empty marker). -/
def RegionResult.snapsSize : RegionResult → Nat
  | .empty _ => 0
  | .full _ _ _ _ _ z _ _ _ => z

/-- The `snapshots_ami_size` field (0 for the empty marker). -/
def RegionResult.amiSize : RegionResult → Nat
  | .empty _ => 0
  | .full _ _ _ _ _ _ z _ _ => z

/-- The `orphaned_snapshots` field (empty for the empty marker). -/
def RegionResult.orphans : RegionResult → List String
  | .empty _ => []
  | .full _ _ _ _ _ _ _ o _ => o

/-- The `orphaned_size` field (0 for the empty marker). -/
def RegionResult.orphSize : RegionResult → Nat
  | .empty _ => 0
  | .full _ _ _ _ _ _ _ _ z => z

/-! ### The Aggregator (`main`, scan phase)

`main` submits one scan per region to a worker pool of six and iterates the
futures in submission order, so the observable result sequence is the map of
the scanner over the region list in order.  A result carrying the `empty`
marker is skipped (not appended to `results`, not added to the totals). -/

/-- Everything a region-scan needs: the region name plus the data its two API
calls would return. -/
structure RegionInput where
  region : String
  snapshots : List Snapshot
  images : List Image
deriving Repr

/-- The three running totals of the aggregation loop. -/
structure Totals where
  totalSize : Nat
  totalOrphanedSize : Nat
  totalOrphanedSnapshots : Nat
deriving DecidableEq, Repr

/-- One iteration of the `for f in fs` loop: skip empty markers, otherwise
append the result and add `snapshots_ami_size`, `orphaned_size` and
`len(orphaned_snapshots)` to the totals. -/
def aggStep (acc : List RegionResult × Totals) (res : RegionResult) :
    List RegionResult × Totals :=
  match res with
  | .empty _ => acc
  | .full _ _ _ _ _ _ amiSize orph orphSize =>
    (acc.1 ++ [res],
      ⟨acc.2.totalSize + amiSize,
        acc.2.totalOrphanedSize + orphSize,
        acc.2.totalOrphanedSnapshots + orph.length⟩)

/-- The scan phase of `main`: scan every region in order, collect the
non-empty results and the three totals. -/
def aggregate (inputs : List RegionInput) : List RegionResult × Totals :=
  (inputs.map (fun inp => scanResult inp.region inp.snapshots inp.images)).foldl
    aggStep ([], ⟨0, 0, 0⟩)

/-! ### The Deleter (`main`, delete phase) and the cost line -/

/-- Lexicographic comparison of char lists by the character order, the order
in which Python sorts strings. -/
def lexLe : List Char → List Char → Bool
  | [], _ => true
  | _ :: _, [] => false
  | a :: as, b :: bs => if a = b then lexLe as bs else decide (a < b)

/-- String comparison as Python `sorted` uses it. -/
def pyStrLe (a b : String) : Bool :=
  lexLe a.toList b.toList

/-- Insert into an already sorted list. -/
def insSorted (x : String) : List String → List String
  | [] => [x]
  | y :: ys => if pyStrLe x y then x :: y :: ys else y :: insSorted x ys

/-- Python sorted on a list of strings. -/
def pySorted (l : List String) : List String :=
  l.foldr insSorted []

/-- The delete calls of one region of the delete loop: skipped entirely when
the orphan set is empty, otherwise one `delete_snapshot` call per orphaned
snapshot id in sorted order, tagged with the region of the client. -/
def deletePlan (results : List RegionResult) : List (String × String) :=
  results.foldl
    (fun plan res =>
      if res.orphans.isEmpty then plan
      else plan ++ (pySorted res.orphans).map (fun sid => (res.regionName, sid)))
    []

/-- Run a plan of delete calls against an API in which `err region sid` tells
whether (and with what error) `delete_snapshot` raises.  Returns the calls
actually issued and the first error, if any; an error aborts everything after
it, exactly as an uncaught Python exception unwinds both loops. -/
def runPlan (err : String → String → Option String) :
    List (String × String) → List (String × String) × Option String
  | [] => ([], none)
  | (r, sid) :: rest =>
    match err r sid with
    | some e => ([(r, sid)], some e)
    | none =>
      let res := runPlan err rest
      ((r, sid) :: res.1, res.2)

/-- The delete phase of `main` under a fallible API. -/
def runDeletes (err : String → String → Option String)
    (results : List RegionResult) : List (String × String) × Option String :=
  runPlan err (deletePlan results)

/-- The cost line `total_cost = 0.022 * 12 * total_orphaned_size`. -/
def estimatedAnnualCost (totalOrphanedSize : Nat) : ℚ :=
  0.022 * 12 * totalOrphanedSize

/-- The grand-total line of a run: totals of the scan phase plus the cost. -/
def runTotals (inputs : List RegionInput) : Totals × ℚ :=
  let t := (aggregate inputs).2
  (t, estimatedAnnualCost t.totalOrphanedSize)

/-! ### Dict and set lemmas -/

theorem dlook_dinsert_self {α : Type} (d : List (String × α)) (k : String)
    (v : α) : dlook (dinsert k v d) k = some v := by
  induction d with
  | nil => simp [dinsert, dlook]
  | cons p rest ih =>
    obtain ⟨k2, v2⟩ := p
    by_cases h : k2 = k
    · simp [dinsert, dlook, h]
    · simp [dinsert, dlook, h, ih]

theorem dlook_dinsert_ne {α : Type} (d : List (String × α)) {k k2 : String}
    (v : α) (h : k2 ≠ k) : dlook (dinsert k v d) k2 = dlook d k2 := by
  induction d with
  | nil => simp [dinsert, dlook, Ne.symm h]
  | cons p rest ih =>
    obtain ⟨k3, v3⟩ := p
    by_cases h3 : k3 = k
    · subst h3
      simp [dinsert, dlook, Ne.symm h]
    · simp only [dinsert, if_neg h3]
      by_cases h32 : k3 = k2
      · simp [dlook, h32]
      · simp [dlook, h32, ih]

theorem mem_dkeys_dinsert {α : Type} (d : List (String × α)) (k a : String)
    (v : α) : a ∈ dkeys (dinsert k v d) ↔ a = k ∨ a ∈ dkeys d := by
  induction d with
  | nil => simp [dinsert, dkeys]
  | cons p rest ih =>
    obtain ⟨k2, v2⟩ := p
    by_cases h : k2 = k
    · subst h
      have he : dinsert k2 v ((k2, v2) :: rest) = (k2, v) :: rest := by
        simp [dinsert]
      rw [he]
      simp only [dkeys, List.map_cons, List.mem_cons]
      tauto
    · simp only [dinsert, if_neg h, dkeys, List.map_cons, List.mem_cons] at ih ⊢
      rw [ih]
      tauto

theorem nodup_dkeys_dinsert {α : Type} (d : List (String × α)) (k : String)
    (v : α) (h : (dkeys d).Nodup) : (dkeys (dinsert k v d)).Nodup := by
  induction d with
  | nil => simp [dinsert, dkeys]
  | cons p rest ih =>
    obtain ⟨k2, v2⟩ := p
    simp only [dkeys, List.map_cons, List.nodup_cons] at h
    by_cases hk : k2 = k
    · subst hk
      simpa [dinsert, dkeys] using h
    · simp only [dinsert, if_neg hk, dkeys, List.map_cons, List.nodup_cons]
      refine ⟨fun hm => ?_, ih h.2⟩
      rcases (mem_dkeys_dinsert rest k k2 v).mp hm with h1 | h1
      · exact hk h1
      · exact h.1 h1

theorem dinsert_dinsert_same {α : Type} (d : List (String × α)) (k : String)
    (v1 v2 : α) : dinsert k v2 (dinsert k v1 d) = dinsert k v2 d := by
  induction d with
  | nil => simp [dinsert]
  | cons p rest ih =>
    obtain ⟨k2, v3⟩ := p
    by_cases h : k2 = k
    · simp [dinsert, h]
    · simp [dinsert, h, ih]

theorem dlook_eq_none_iff {α : Type} (d : List (String × α)) (k : String) :
    dlook d k = none ↔ k ∉ dkeys d := by
  induction d with
  | nil => simp [dlook, dkeys]
  | cons p rest ih =>
    obtain ⟨k2, v2⟩ := p
    by_cases h : k2 = k
    · simp [dlook, h, dkeys]
    · simp [dlook, h, dkeys, List.mem_cons] at ih ⊢
      exact ⟨fun hh => ⟨fun he => h he.symm, (ih.mp hh)⟩, fun hh => ih.mpr hh.2⟩

theorem dlook_isSome_iff {α : Type} (d : List (String × α)) (k : String) :
    (dlook d k).isSome = true ↔ k ∈ dkeys d := by
  rcases hl : dlook d k with _ | v
  · simpa [hl] using (dlook_eq_none_iff d k).mp hl
  · simp only [Option.isSome_some, true_iff]
    by_contra hm
    rw [(dlook_eq_none_iff d k).mpr hm] at hl
    exact Option.noConfusion hl

theorem dlook_eq_some_of_mem {α : Type} (d : List (String × α)) (k : String)
    (v : α) (hnd : (dkeys d).Nodup) (h : (k, v) ∈ d) : dlook d k = some v := by
  induction d with
  | nil => simp at h
  | cons p rest ih =>
    obtain ⟨k2, v2⟩ := p
    simp only [dkeys, List.map_cons, List.nodup_cons] at hnd
    rcases List.mem_cons.mp h with h1 | h1
    · obtain ⟨h2, h3⟩ := Prod.mk.injEq .. ▸ h1.symm
      simp [dlook, h2.symm, h3]
    · have hk2 : k2 ≠ k := by
        intro he
        subst he
        exact hnd.1 (List.mem_map.mpr ⟨(k2, v), h1, rfl⟩)
      simp [dlook, hk2, ih hnd.2 h1]

theorem mem_of_dlook_eq_some {α : Type} (d : List (String × α)) (k : String)
    (v : α) (h : dlook d k = some v) : (k, v) ∈ d := by
  induction d with
  | nil => simp [dlook] at h
  | cons p rest ih =>
    obtain ⟨k2, v2⟩ := p
    simp only [dlook] at h
    split at h
    next heq =>
      obtain rfl := Option.some.inj h
      exact heq ▸ List.mem_cons_self _ _
    next _ => exact List.mem_cons_of_mem _ (ih h)

theorem mem_sinsert (x a : String) (s : List String) :
    a ∈ sinsert x s ↔ a = x ∨ a ∈ s := by
  by_cases h : x ∈ s
  · simp only [sinsert, if_pos h]
    constructor
    · exact Or.inr
    · rintro (rfl | hm)
      · exact h
      · exact hm
  · simp [sinsert, if_neg h]
    tauto

/-! ### Regex lemmas -/

theorem chopLit_some_eq {ps cs rest : List Char}
    (h : chopLit ps cs = some rest) : cs = ps ++ rest := by
  induction ps generalizing cs with
  | nil =>
    simp only [chopLit, Option.some.injEq] at h
    simp [h]
  | cons p ps ih =>
    cases cs with
    | nil => simp [chopLit] at h
    | cons c cs =>
      simp only [chopLit] at h
      split at h
      next heq => simp [heq, ih h]
      next => exact absurd h (by simp)

/-- A description matched by `RE_CREATED_AMI` is never matched by
`RE_COPIED_AMI`: the former forces the second character to be `r`, the
latter forces it to be `o`. -/
theorem copied_none_of_created_some {cs : List Char} {a : List Char}
    (h : createdAmiMatchL cs = some a) : copiedAmiMatchL cs = none := by
  have hpre : ∃ rest, chopLit "Created by CreateImage(".toList cs = some rest := by
    simp only [createdAmiMatchL] at h
    rcases hc : chopLit "Created by CreateImage(".toList cs with _ | rest
    · rw [hc] at h
      exact absurd h (by simp)
    · exact ⟨rest, rfl⟩
  obtain ⟨rest, hc⟩ := hpre
  have he : cs = 'C' :: 'r' :: ("eated by CreateImage(".toList ++ rest) := by
    have := chopLit_some_eq hc
    simpa using this
  subst he
  simp only [copiedAmiMatchL]
  have : chopLit "Copied for DestinationAmi ".toList
      ('C' :: 'r' :: ("eated by CreateImage(".toList ++ rest)) = none := by
    show chopLit ('C' :: 'o' :: "pied for DestinationAmi ".toList)
      ('C' :: 'r' :: ("eated by CreateImage(".toList ++ rest)) = none
    simp [chopLit]
  rw [this]

/-- The flip side: a description matched by `RE_COPIED_AMI` is never matched
by `RE_CREATED_AMI`. -/
theorem created_none_of_copied_some {cs : List Char} {a : List Char}
    (h : copiedAmiMatchL cs = some a) : createdAmiMatchL cs = none := by
  rcases hc : createdAmiMatchL cs with _ | b
  · rfl
  · rw [copied_none_of_created_some hc] at h
    exact absurd h (by simp)

/-- The value the loop body leaves in `snapshot_to_ami` for one snapshot: the
copied-pattern match wins if it fires (it is applied second), otherwise the
created-pattern match. -/
def inferAmi (desc : String) : Option String :=
  match copiedAmiMatch desc with
  | some a => some a
  | none => createdAmiMatch desc

theorem snapshotToAmiStep_eq (d : List (String × String)) (s : Snapshot) :
    snapshotToAmiStep d s =
      match inferAmi s.description with
      | some a => dinsert s.snapshotId a d
      | none => d := by
  rcases hco : copiedAmiMatchL s.description.toList with _ | la
  · rcases hcr : createdAmiMatchL s.description.toList with _ | lb
    all_goals
      simp only [String.toList] at hco hcr
      simp [snapshotToAmiStep, inferAmi, createdAmiMatch, copiedAmiMatch,
        String.toList, hco, hcr]
  · have hcr : createdAmiMatchL s.description.toList = none :=
      created_none_of_copied_some hco
    simp only [String.toList] at hco hcr
    simp [snapshotToAmiStep, inferAmi, createdAmiMatch, copiedAmiMatch,
      String.toList, hco, hcr]

/-! ### Lemmas about the built dicts and sets -/

theorem nodup_dkeys_foldl_s2a (snaps : List Snapshot)
    (d : List (String × String)) (h : (dkeys d).Nodup) :
    (dkeys (snaps.foldl snapshotToAmiStep d)).Nodup := by
  induction snaps generalizing d with
  | nil => simpa
  | cons s rest ih =>
    simp only [List.foldl_cons]
    apply ih
    rw [snapshotToAmiStep_eq]
    rcases hi : inferAmi s.description with _ | a
    · simpa using h
    · simpa using nodup_dkeys_dinsert d s.snapshotId a h

theorem nodup_dkeys_buildS2A (snaps : List Snapshot) :
    (dkeys (buildSnapshotToAmi snaps)).Nodup :=
  nodup_dkeys_foldl_s2a snaps [] (by simp [dkeys])

theorem mem_dkeys_foldl_s2a (snaps : List Snapshot)
    (d : List (String × String)) (k : String) :
    k ∈ dkeys (snaps.foldl snapshotToAmiStep d) ↔
      k ∈ dkeys d ∨
        ∃ s ∈ snaps, s.snapshotId = k ∧ (inferAmi s.description).isSome := by
  induction snaps generalizing d with
  | nil => simp
  | cons s rest ih =>
    simp only [List.foldl_cons]
    rw [ih, snapshotToAmiStep_eq]
    rcases hi : inferAmi s.description with _ | a
    · simp only [List.mem_cons]
      constructor
      · rintro (h1 | ⟨s2, hs2, h2⟩)
        · exact Or.inl h1
        · exact Or.inr ⟨s2, Or.inr hs2, h2⟩
      · rintro (h1 | ⟨s2, rfl | hs2, h2⟩)
        · exact Or.inl h1
        · rw [hi] at h2
          simp at h2
        · exact Or.inr ⟨s2, hs2, h2⟩
    · rw [mem_dkeys_dinsert]
      simp only [List.mem_cons]
      constructor
      · rintro ((rfl | h1) | ⟨s2, hs2, h2⟩)
        · exact Or.inr ⟨s, Or.inl rfl, rfl, by simp [hi]⟩
        · exact Or.inl h1
        · exact Or.inr ⟨s2, Or.inr hs2, h2⟩
      · rintro (h1 | ⟨s2, rfl | hs2, h2⟩)
        · exact Or.inl (Or.inr h1)
        · exact Or.inl (Or.inl h2.1.symm)
        · exact Or.inr ⟨s2, hs2, h2⟩

theorem mem_dkeys_buildS2A (snaps : List Snapshot) (k : String) :
    k ∈ dkeys (buildSnapshotToAmi snaps) ↔
      ∃ s ∈ snaps, s.snapshotId = k ∧ (inferAmi s.description).isSome := by
  rw [buildSnapshotToAmi, mem_dkeys_foldl_s2a]
  simp [dkeys]

theorem mem_foldl_sinsert (images : List Image) (t : List String) (a : String) :
    a ∈ images.foldl (fun t i => sinsert i.imageId t) t ↔
      a ∈ t ∨ ∃ i ∈ images, i.imageId = a := by
  induction images generalizing t with
  | nil => simp
  | cons i rest ih =>
    simp only [List.foldl_cons]
    rw [ih, mem_sinsert]
    simp only [List.mem_cons]
    constructor
    · rintro ((rfl | h1) | ⟨i2, hi2, h2⟩)
      · exact Or.inr ⟨i, Or.inl rfl, rfl⟩
      · exact Or.inl h1
      · exact Or.inr ⟨i2, Or.inr hi2, h2⟩
    · rintro (h1 | ⟨i2, rfl | hi2, h2⟩)
      · exact Or.inl (Or.inr h1)
      · exact Or.inl (Or.inl h2.symm)
      · exact Or.inr ⟨i2, hi2, h2⟩

theorem mem_amisOf (images : List Image) (a : String) :
    a ∈ amisOf images ↔ ∃ i ∈ images, i.imageId = a := by
  rw [amisOf, mem_foldl_sinsert]
  simp

theorem dinsert_of_not_mem {α : Type} (d : List (String × α)) {k : String}
    (v : α) (h : k ∉ dkeys d) : dinsert k v d = d ++ [(k, v)] := by
  induction d with
  | nil => simp [dinsert]
  | cons p rest ih =>
    obtain ⟨k2, v2⟩ := p
    simp only [dkeys, List.map_cons, List.mem_cons] at h
    push_neg at h
    have hk : k2 ≠ k := fun he => h.1 he.symm
    simp only [dinsert, if_neg hk, List.cons_append, List.cons.injEq, true_and]
    exact ih h.2

theorem foldl_byId_eq_append (snaps : List Snapshot) :
    ∀ d : List (String × Snapshot),
      (snaps.map Snapshot.snapshotId).Nodup →
      (∀ s ∈ snaps, s.snapshotId ∉ dkeys d) →
      snaps.foldl (fun d s => dinsert s.snapshotId s d) d =
        d ++ snaps.map (fun s => (s.snapshotId, s)) := by
  induction snaps with
  | nil =>
    intro d _ _
    simp
  | cons s rest ih =>
    intro d hnd hdisj
    simp only [List.map_cons, List.nodup_cons] at hnd
    simp only [List.foldl_cons, List.map_cons]
    have hd2 : ∀ s2 ∈ rest, s2.snapshotId ∉ dkeys (d ++ [(s.snapshotId, s)]) := by
      intro s2 hs2
      simp only [dkeys, List.map_append, List.mem_append, List.map_cons,
        List.map_nil, List.mem_singleton]
      push_neg
      exact ⟨hdisj s2 (List.mem_cons_of_mem s hs2),
        fun he => hnd.1 (List.mem_map.mpr ⟨s2, hs2, he⟩)⟩
    rw [dinsert_of_not_mem d s (hdisj s (List.mem_cons_self s rest)),
      ih (d ++ [(s.snapshotId, s)]) hnd.2 hd2, List.append_assoc]
    rfl

theorem buildById_eq_map (snaps : List Snapshot)
    (hnd : (snaps.map Snapshot.snapshotId).Nodup) :
    buildSnapshotsById snaps = snaps.map (fun s => (s.snapshotId, s)) := by
  simpa using foldl_byId_eq_append snaps [] hnd (by simp [dkeys])

theorem dlook_buildById (snaps : List Snapshot)
    (hnd : (snaps.map Snapshot.snapshotId).Nodup) {s : Snapshot}
    (hs : s ∈ snaps) :
    dlook (buildSnapshotsById snaps) s.snapshotId = some s := by
  rw [buildById_eq_map snaps hnd]
  apply dlook_eq_some_of_mem
  · have : dkeys (snaps.map fun s => (s.snapshotId, s)) =
        snaps.map Snapshot.snapshotId := by
      simp [dkeys, List.map_map]
    rw [this]
    exact hnd
  · exact List.mem_map.mpr ⟨s, hs, rfl⟩

/-! ### Sorting lemmas: `pySorted` is a sorting function for the
lexicographic string order Python uses -/

theorem lexLe_iff (as bs : List Char) :
    lexLe as bs = true ↔ (as < bs ∨ as = bs) := by
  induction as generalizing bs with
  | nil =>
    cases bs with
    | nil => simp [lexLe]
    | cons b bs =>
      have hlt : ([] : List Char) < b :: bs := List.Lex.nil
      simp [lexLe, hlt]
  | cons a as ih =>
    cases bs with
    | nil =>
      simp only [lexLe, Bool.false_eq_true, false_iff]
      rintro (h | h)
      · exact List.Lex.not_nil_right _ _ h
      · exact List.noConfusion h
    | cons b bs =>
      by_cases hab : a = b
      · subst hab
        have he : lexLe (a :: as) (a :: bs) = lexLe as bs := by
          simp [lexLe]
        rw [he, ih]
        constructor
        · rintro (h | rfl)
          · exact Or.inl (List.Lex.cons h)
          · exact Or.inr rfl
        · rintro (h | h)
          · exact Or.inl (List.Lex.cons_iff.mp h)
          · injection h with h1 h2
            exact Or.inr h2
      · have he : lexLe (a :: as) (b :: bs) = decide (a < b) := by
          simp [lexLe, hab]
        rw [he, decide_eq_true_eq]
        constructor
        · intro h
          exact Or.inl (List.Lex.rel h)
        · rintro (h | h)
          · cases h with
            | cons h2 => exact absurd rfl hab
            | rel h2 => exact h2
          · injection h with h1 h2
            exact absurd h1 hab

theorem pyStrLe_iff (a b : String) : pyStrLe a b = true ↔ a ≤ b := by
  rw [pyStrLe, lexLe_iff, String.le_iff_toList_le, le_iff_lt_or_eq]

theorem mem_insSorted (x b : String) (l : List String) :
    b ∈ insSorted x l ↔ b = x ∨ b ∈ l := by
  induction l with
  | nil => simp [insSorted]
  | cons y ys ih =>
    simp only [insSorted]
    split
    · simp [List.mem_cons]
    · simp only [List.mem_cons, ih]
      tauto

theorem sorted_insSorted (x : String) (l : List String)
    (h : l.Sorted (· ≤ ·)) : (insSorted x l).Sorted (· ≤ ·) := by
  induction l with
  | nil => simp [insSorted]
  | cons y ys ih =>
    rw [List.sorted_cons] at h
    simp only [insSorted]
    split
    next hxy =>
      rw [List.sorted_cons]
      refine ⟨?_, List.sorted_cons.mpr h⟩
      intro b hb
      rcases List.mem_cons.mp hb with rfl | hb
      · exact (pyStrLe_iff x b).mp hxy
      · exact le_trans ((pyStrLe_iff x y).mp hxy) (h.1 b hb)
    next hxy =>
      rw [List.sorted_cons]
      refine ⟨?_, ih h.2⟩
      intro b hb
      rcases (mem_insSorted x b ys).mp hb with rfl | hb
      · exact le_of_not_le (fun hc => hxy ((pyStrLe_iff b y).mpr hc))
      · exact h.1 b hb

theorem perm_insSorted (x : String) (l : List String) :
    (insSorted x l).Perm (x :: l) := by
  induction l with
  | nil => simp [insSorted]
  | cons y ys ih =>
    simp only [insSorted]
    split
    · exact List.Perm.refl _
    · exact (List.Perm.cons y ih).trans (List.Perm.swap x y ys)

theorem perm_pySorted (l : List String) : (pySorted l).Perm l := by
  induction l with
  | nil => simp [pySorted]
  | cons a l ih =>
    have he : pySorted (a :: l) = insSorted a (pySorted l) := rfl
    rw [he]
    exact (perm_insSorted a (pySorted l)).trans (List.Perm.cons a ih)

theorem sorted_pySorted (l : List String) : (pySorted l).Sorted (· ≤ ·) := by
  induction l with
  | nil => simp [pySorted]
  | cons a l ih => exact sorted_insSorted a (pySorted l) ih

theorem mem_pySorted (l : List String) (a : String) :
    a ∈ pySorted l ↔ a ∈ l :=
  (perm_pySorted l).mem_iff

theorem count_pySorted (l : List String) (hnd : l.Nodup) (sid : String) :
    (pySorted l).count sid = if sid ∈ l then 1 else 0 := by
  rw [(perm_pySorted l).count_eq]
  split
  next h => exact List.count_eq_one_of_mem hnd h
  next h => exact List.count_eq_zero_of_not_mem h

/-! ### Scanner characterizations -/

theorem scanResult_of_ne (region : String) (snaps : List Snapshot)
    (imgs : List Image) (hne : snaps ≠ []) :
    scanResult region snaps imgs = RegionResult.full region imgs.length
      snaps.length (buildSnapshotToAmi snaps) (buildSnapshotsById snaps)
      ((snaps.map Snapshot.volumeSize).sum)
      (((dkeys (buildSnapshotToAmi snaps)).map
        (fun sid => volOf (buildSnapshotsById snaps) sid)).sum)
      (orphansOf snaps imgs) (orphSizeOf snaps imgs) := by
  cases snaps with
  | nil => exact absurd rfl hne
  | cons s rest => simp [scanResult, orphaned_ami_snapshots]

theorem mem_orphansOf (snaps : List Snapshot) (imgs : List Image)
    (sid : String) :
    sid ∈ orphansOf snaps imgs ↔
      ∃ a, (sid, a) ∈ buildSnapshotToAmi snaps ∧ a ∉ amisOf imgs := by
  simp only [orphansOf, List.mem_map, List.mem_filter]
  constructor
  · rintro ⟨⟨k, a⟩, ⟨hmem, hp⟩, rfl⟩
    refine ⟨a, hmem, ?_⟩
    have ha : a ∈ unknownAmisOf snaps imgs := by simpa using hp
    simp only [unknownAmisOf, List.mem_filter, List.mem_dedup] at ha
    simpa using ha.2
  · rintro ⟨a, hmem, hna⟩
    refine ⟨(sid, a), ⟨hmem, ?_⟩, rfl⟩
    have ha : a ∈ unknownAmisOf snaps imgs := by
      simp only [unknownAmisOf, List.mem_filter, List.mem_dedup]
      exact ⟨List.mem_map.mpr ⟨(sid, a), hmem, rfl⟩, by simpa using hna⟩
    simpa using ha

theorem mem_orphansOf_dlook (snaps : List Snapshot) (imgs : List Image)
    (sid : String) :
    sid ∈ orphansOf snaps imgs ↔
      ∃ a, dlook (buildSnapshotToAmi snaps) sid = some a ∧
        a ∉ amisOf imgs := by
  rw [mem_orphansOf]
  constructor
  · rintro ⟨a, hmem, hna⟩
    exact ⟨a, dlook_eq_some_of_mem _ _ _ (nodup_dkeys_buildS2A snaps) hmem, hna⟩
  · rintro ⟨a, hl, hna⟩
    exact ⟨a, mem_of_dlook_eq_some _ _ _ hl, hna⟩

theorem nodup_orphansOf (snaps : List Snapshot) (imgs : List Image) :
    (orphansOf snaps imgs).Nodup :=
  List.Nodup.sublist (List.Sublist.map Prod.fst (List.filter_sublist _))
    (nodup_dkeys_buildS2A snaps)

/-! ### The claims -/

/-- C1: in a non-empty region result, a snapshot id is orphaned iff
`snapshot_to_ami` maps it to an image id that is not in the image-id set
collected for the region. -/
theorem claim_c1_orphaned_iff (region : String) (snaps : List Snapshot)
    (imgs : List Image) (hne : snaps ≠ []) (sid : String) :
    sid ∈ (scanResult region snaps imgs).orphans ↔
      ∃ a, dlook ((scanResult region snaps imgs).s2a) sid = some a ∧
        a ∉ amisOf imgs := by
  rw [scanResult_of_ne region snaps imgs hne]
  simp only [RegionResult.orphans, RegionResult.s2a]
  exact mem_orphansOf_dlook snaps imgs sid

/-- C1 witness: a snapshot described as created for ami-0001 is orphaned
when the known image set holds only ami-0002, and not orphaned when it holds
ami-0001. -/
theorem claim_c1_witness :
    ("snap-0001" ∈ (scanResult "us-east-1"
        [⟨"snap-0001", "Created by CreateImage(i-123) for ami-0001", 8, "t"⟩]
        [⟨"ami-0002"⟩]).orphans) ∧
    ("snap-0001" ∉ (scanResult "us-east-1"
        [⟨"snap-0001", "Created by CreateImage(i-123) for ami-0001", 8, "t"⟩]
        [⟨"ami-0001"⟩]).orphans) :=
  ⟨(claim_c1_orphaned_iff "us-east-1"
      [⟨"snap-0001", "Created by CreateImage(i-123) for ami-0001", 8, "t"⟩]
      [⟨"ami-0002"⟩] (by decide) "snap-0001").mpr
      ⟨"ami-0001", by decide, by decide⟩,
    by decide⟩

/-- C2: a snapshot whose description matches neither pattern is never in
`snapshot_to_ami` and never orphaned. -/
theorem claim_c2_unmatched_excluded (region : String) (snaps : List Snapshot)
    (imgs : List Image) (hnd : (snaps.map Snapshot.snapshotId).Nodup)
    (s : Snapshot) (hs : s ∈ snaps)
    (hcr : createdAmiMatch s.description = none)
    (hco : copiedAmiMatch s.description = none) :
    s.snapshotId ∉ dkeys ((scanResult region snaps imgs).s2a) ∧
    s.snapshotId ∉ (scanResult region snaps imgs).orphans := by
  have hne := List.ne_nil_of_mem hs
  rw [scanResult_of_ne region snaps imgs hne]
  simp only [RegionResult.s2a, RegionResult.orphans]
  have hkey : s.snapshotId ∉ dkeys (buildSnapshotToAmi snaps) := by
    rw [mem_dkeys_buildS2A]
    rintro ⟨s2, hs2, hid, hsome⟩
    have he : s2 = s := List.inj_on_of_nodup_map hnd hs2 hs hid
    subst he
    rw [inferAmi, hco, hcr] at hsome
    simp at hsome
  refine ⟨hkey, fun hm => ?_⟩
  obtain ⟨a, hmem, _⟩ := (mem_orphansOf snaps imgs s.snapshotId).mp hm
  exact hkey (List.mem_map.mpr ⟨(s.snapshotId, a), hmem, rfl⟩)

/-- C2 witness at a snapshot whose description matches neither pattern. -/
theorem claim_c2_witness :
    ("snap-7" ∉ dkeys ((scanResult "eu-west-1"
        [⟨"snap-7", "manual backup", 4, "t"⟩] []).s2a)) ∧
    ("snap-7" ∉ (scanResult "eu-west-1"
        [⟨"snap-7", "manual backup", 4, "t"⟩] []).orphans) :=
  claim_c2_unmatched_excluded "eu-west-1" [⟨"snap-7", "manual backup", 4, "t"⟩]
    [] (by decide) ⟨"snap-7", "manual backup", 4, "t"⟩ (by decide) (by decide)
    (by decide)

/-- C3: in a non-empty region result, `orphaned_size` is the sum of the
`VolumeSize` of exactly the orphaned snapshot ids (a duplicate-free list),
and it is 0 when the orphaned set is empty. -/
theorem claim_c3_orphaned_size (region : String) (snaps : List Snapshot)
    (imgs : List Image) (hne : snaps ≠ []) :
    (scanResult region snaps imgs).orphSize =
      (((scanResult region snaps imgs).orphans).map
        (fun sid => volOf ((scanResult region snaps imgs).snapsById) sid)).sum ∧
    ((scanResult region snaps imgs).orphans).Nodup ∧
    ((scanResult region snaps imgs).orphans = [] →
      (scanResult region snaps imgs).orphSize = 0) := by
  rw [scanResult_of_ne region snaps imgs hne]
  simp only [RegionResult.orphSize, RegionResult.orphans, RegionResult.snapsById]
  refine ⟨rfl, nodup_orphansOf snaps imgs, fun h => ?_⟩
  rw [orphSizeOf, h]
  simp

/-- C3 witness at a one-snapshot one-image region. -/
theorem claim_c3_witness :
    (scanResult "us-east-1"
        [⟨"snap-1", "Created by CreateImage(i-1) for ami-1", 5, "t"⟩]
        []).orphSize =
      (((scanResult "us-east-1"
          [⟨"snap-1", "Created by CreateImage(i-1) for ami-1", 5, "t"⟩]
          []).orphans).map
        (fun sid => volOf ((scanResult "us-east-1"
          [⟨"snap-1", "Created by CreateImage(i-1) for ami-1", 5, "t"⟩]
          []).snapsById) sid)).sum :=
  (claim_c3_orphaned_size "us-east-1"
    [⟨"snap-1", "Created by CreateImage(i-1) for ami-1", 5, "t"⟩] []
    (by decide)).1

/-- C4: a region with zero snapshots yields the empty marker (region name
only) and no `describe_images` call. -/
theorem claim_c4_empty_shortcircuit (region : String) (imgs : List Image) :
    orphaned_ami_snapshots region [] imgs =
      (RegionResult.empty region, [ApiCall.describeSnapshots]) ∧
    ApiCall.describeImages ∉ scanCalls region [] imgs := by
  refine ⟨by simp [orphaned_ami_snapshots], ?_⟩
  simp [scanCalls, orphaned_ami_snapshots]

/-- The order-swapped variant of `inferAmi`: the copied pattern is tried
first and a created-pattern match overwrites.  Used only to state that the
loop body does not depend on the order of the two pattern applications. -/
def inferAmiCreatedLast (desc : String) : Option String :=
  match createdAmiMatch desc with
  | some a => some a
  | none => copiedAmiMatch desc

/-- C6: at most one of the two description patterns matches any string, so
the image id recorded per snapshot does not depend on the order in which the
two patterns are applied. -/
theorem claim_c6_patterns_exclusive (desc : String) :
    (createdAmiMatch desc = none ∨ copiedAmiMatch desc = none) ∧
    inferAmi desc = inferAmiCreatedLast desc := by
  have hexc : createdAmiMatch desc = none ∨ copiedAmiMatch desc = none := by
    rcases hcr : createdAmiMatchL desc.toList with _ | la
    · left
      rw [createdAmiMatch, hcr]
      rfl
    · right
      rw [copiedAmiMatch, copied_none_of_created_some hcr]
      rfl
  refine ⟨hexc, ?_⟩
  rcases hexc with h | h
  · rw [inferAmi, inferAmiCreatedLast, h]
    rcases hco : copiedAmiMatch desc with _ | a <;> simp [hco]
  · rw [inferAmi, inferAmiCreatedLast, h]
    rcases hcr : createdAmiMatch desc with _ | a <;> simp [hcr]

/-! ### Aggregation lemmas -/

theorem foldl_aggStep (rs : List RegionResult) :
    ∀ acc : List RegionResult × Totals,
      (rs.foldl aggStep acc).1 =
        acc.1 ++ rs.filter (fun r => !r.isEmptyMarker) ∧
      (rs.foldl aggStep acc).2.totalOrphanedSize =
        acc.2.totalOrphanedSize +
          ((rs.filter (fun r => !r.isEmptyMarker)).map
            RegionResult.orphSize).sum := by
  induction rs with
  | nil =>
    intro acc
    simp
  | cons r rest ih =>
    intro acc
    cases r with
    | empty rg =>
      have h1 : aggStep acc (RegionResult.empty rg) = acc := rfl
      have h2 : (RegionResult.empty rg).isEmptyMarker = true := rfl
      simp only [List.foldl_cons, h1, List.filter_cons, h2, Bool.not_true]
      simpa using ih acc
    | full rg ac sc m d ss sas orph osz =>
      have h2 : (RegionResult.full rg ac sc m d ss sas orph osz).isEmptyMarker
          = false := rfl
      have hf : List.filter (fun r => !r.isEmptyMarker)
          (RegionResult.full rg ac sc m d ss sas orph osz :: rest) =
          RegionResult.full rg ac sc m d ss sas orph osz ::
            List.filter (fun r => !r.isEmptyMarker) rest := by
        simp [List.filter_cons, h2]
      have ha : aggStep acc (RegionResult.full rg ac sc m d ss sas orph osz) =
          (acc.1 ++ [RegionResult.full rg ac sc m d ss sas orph osz],
            ⟨acc.2.totalSize + sas, acc.2.totalOrphanedSize + osz,
              acc.2.totalOrphanedSnapshots + orph.length⟩) := rfl
      simp only [List.foldl_cons, hf]
      obtain ⟨ih1, ih2⟩ :=
        ih (aggStep acc (RegionResult.full rg ac sc m d ss sas orph osz))
      refine ⟨?_, ?_⟩
      · rw [ih1, ha]
        simp [List.append_assoc]
      · rw [ih2, ha]
        simp only [List.map_cons, List.sum_cons, RegionResult.orphSize]
        omega

theorem aggregate_results_eq (inputs : List RegionInput) :
    (aggregate inputs).1 = (inputs.map (fun inp =>
        scanResult inp.region inp.snapshots inp.images)).filter
      (fun r => !r.isEmptyMarker) := by
  obtain ⟨h1, _⟩ := foldl_aggStep (inputs.map (fun inp =>
    scanResult inp.region inp.snapshots inp.images)) ([], ⟨0, 0, 0⟩)
  simpa [aggregate] using h1

theorem aggregate_totalOrphanedSize (inputs : List RegionInput) :
    (aggregate inputs).2.totalOrphanedSize =
      (((aggregate inputs).1).map RegionResult.orphSize).sum := by
  obtain ⟨h1, h2⟩ := foldl_aggStep (inputs.map (fun inp =>
    scanResult inp.region inp.snapshots inp.images)) ([], ⟨0, 0, 0⟩)
  rw [aggregate_results_eq]
  simpa [aggregate] using h2

/-- C5: the grand total of orphaned storage is the sum of the per-region
`orphaned_size` over exactly the non-empty scan results, in submission
order. -/
theorem claim_c5_grand_total (inputs : List RegionInput) :
    (aggregate inputs).2.totalOrphanedSize =
      (((aggregate inputs).1).map RegionResult.orphSize).sum ∧
    (aggregate inputs).1 = (inputs.map (fun inp =>
        scanResult inp.region inp.snapshots inp.images)).filter
      (fun r => !r.isEmptyMarker) :=
  ⟨aggregate_totalOrphanedSize inputs, aggregate_results_eq inputs⟩

/-! ### Deleter lemmas -/

theorem deletePlan_eq (results : List RegionResult) :
    deletePlan results =
      (results.filter (fun res => !res.orphans.isEmpty)).flatMap
        (fun res => (pySorted res.orphans).map
          (fun sid => (res.regionName, sid))) := by
  suffices h : ∀ acc : List (String × String),
      results.foldl
        (fun plan res =>
          if res.orphans.isEmpty then plan
          else plan ++ (pySorted res.orphans).map
            (fun sid => (res.regionName, sid))) acc =
        acc ++ (results.filter (fun res => !res.orphans.isEmpty)).flatMap
          (fun res => (pySorted res.orphans).map
            (fun sid => (res.regionName, sid))) by
    simpa [deletePlan] using h []
  induction results with
  | nil =>
    intro acc
    simp
  | cons r rest ih =>
    intro acc
    by_cases hr : r.orphans.isEmpty
    · have hf : List.filter (fun res => !res.orphans.isEmpty) (r :: rest) =
          List.filter (fun res => !res.orphans.isEmpty) rest := by
        simp [List.filter_cons, hr]
      simp only [List.foldl_cons, if_pos hr, hf]
      exact ih acc
    · have hf : List.filter (fun res => !res.orphans.isEmpty) (r :: rest) =
          r :: List.filter (fun res => !res.orphans.isEmpty) rest := by
        simp [List.filter_cons, hr]
      simp only [List.foldl_cons, if_neg hr, hf, List.flatMap_cons]
      rw [ih]
      simp [List.append_assoc]

theorem scan_orphans_nodup (region : String) (snaps : List Snapshot)
    (imgs : List Image) : ((scanResult region snaps imgs).orphans).Nodup := by
  by_cases hne : snaps = []
  · subst hne
    simp [scanResult, orphaned_ami_snapshots, RegionResult.orphans]
  · rw [scanResult_of_ne region snaps imgs hne]
    exact nodup_orphansOf snaps imgs

theorem mem_aggregate_orphans_nodup (inputs : List RegionInput)
    (r : RegionResult) (hr : r ∈ (aggregate inputs).1) : r.orphans.Nodup := by
  rw [aggregate_results_eq] at hr
  obtain ⟨hm, _⟩ := List.mem_filter.mp hr
  obtain ⟨inp, _, rfl⟩ := List.mem_map.mp hm
  exact scan_orphans_nodup _ _ _

/-- C7: the delete phase walks the aggregated results in order, skips the
regions with no orphans, and issues the delete calls of one region in
ascending sorted order, exactly one call per orphaned snapshot id. -/
theorem claim_c7_delete_order (inputs : List RegionInput) (r : RegionResult)
    (hr : r ∈ (aggregate inputs).1) :
    deletePlan ((aggregate inputs).1) =
      (((aggregate inputs).1).filter (fun res => !res.orphans.isEmpty)).flatMap
        (fun res => (pySorted res.orphans).map
          (fun sid => (res.regionName, sid))) ∧
    List.Sorted (· ≤ ·) (pySorted r.orphans) ∧
    ∀ sid : String, (pySorted r.orphans).count sid =
      if sid ∈ r.orphans then 1 else 0 :=
  ⟨deletePlan_eq _, sorted_pySorted _,
    count_pySorted _ (mem_aggregate_orphans_nodup inputs r hr)⟩

/-- C7 witness at a one-region input with two orphaned snapshots. -/
theorem claim_c7_witness :
    deletePlan ((aggregate [⟨"r1",
        [⟨"s2", "Created by CreateImage(i-1) for ami-9", 3, "t"⟩,
          ⟨"s1", "Created by CreateImage(i-1) for ami-9", 2, "t"⟩], []⟩]).1) =
      (((aggregate [⟨"r1",
        [⟨"s2", "Created by CreateImage(i-1) for ami-9", 3, "t"⟩,
          ⟨"s1", "Created by CreateImage(i-1) for ami-9", 2, "t"⟩], []⟩]).1).filter
            (fun res => !res.orphans.isEmpty)).flatMap
        (fun res => (pySorted res.orphans).map
          (fun sid => (res.regionName, sid))) ∧
    List.Sorted (· ≤ ·) (pySorted (scanResult "r1"
        [⟨"s2", "Created by CreateImage(i-1) for ami-9", 3, "t"⟩,
          ⟨"s1", "Created by CreateImage(i-1) for ami-9", 2, "t"⟩] []).orphans) ∧
    ∀ sid : String, (pySorted (scanResult "r1"
        [⟨"s2", "Created by CreateImage(i-1) for ami-9", 3, "t"⟩,
          ⟨"s1", "Created by CreateImage(i-1) for ami-9", 2, "t"⟩] []).orphans).count sid =
      if sid ∈ (scanResult "r1"
        [⟨"s2", "Created by CreateImage(i-1) for ami-9", 3, "t"⟩,
          ⟨"s1", "Created by CreateImage(i-1) for ami-9", 2, "t"⟩] []).orphans
      then 1 else 0 :=
  claim_c7_delete_order
    [⟨"r1", [⟨"s2", "Created by CreateImage(i-1) for ami-9", 3, "t"⟩,
      ⟨"s1", "Created by CreateImage(i-1) for ami-9", 2, "t"⟩], []⟩]
    (scanResult "r1"
      [⟨"s2", "Created by CreateImage(i-1) for ami-9", 3, "t"⟩,
        ⟨"s1", "Created by CreateImage(i-1) for ami-9", 2, "t"⟩] [])
    (by decide)

theorem runPlan_append_err (err : String → String → Option String)
    (done : List (String × String)) :
    ∀ (r sid e : String) (rest : List (String × String)),
      (∀ p ∈ done, err p.1 p.2 = none) → err r sid = some e →
      runPlan err (done ++ (r, sid) :: rest) = (done ++ [(r, sid)], some e) := by
  induction done with
  | nil =>
    intro r sid e rest hok he
    simp [runPlan, he]
  | cons p dn ih =>
    intro r sid e rest hok he
    obtain ⟨pr, ps⟩ := p
    have hnone : err pr ps = none := hok (pr, ps) (List.mem_cons_self _ _)
    simp only [List.cons_append, runPlan, hnone, List.append_eq]
    rw [ih r sid e rest (fun q hq => hok q (List.mem_cons_of_mem _ hq)) he]

/-- C8: the first failing delete call aborts the run: the calls issued are
exactly the successful ones before it plus the failing call itself, the
error is returned unmodified, and nothing after the failure is attempted. -/
theorem claim_c8_error_aborts (err : String → String → Option String)
    (results : List RegionResult) (done rest : List (String × String))
    (r sid e : String)
    (hplan : deletePlan results = done ++ (r, sid) :: rest)
    (hok : ∀ p ∈ done, err p.1 p.2 = none)
    (he : err r sid = some e) :
    runDeletes err results = (done ++ [(r, sid)], some e) := by
  rw [runDeletes, hplan]
  exact runPlan_append_err err done r sid e rest hok he

/-- C8 witness: with two planned deletes and the second raising, only the
two calls up to the failure are issued and the error comes back verbatim. -/
theorem claim_c8_witness :
    runDeletes (fun _ sid => if sid = "s2" then some "boom" else none)
        [RegionResult.full "r1" 0 2 [] [] 5 5 ["s2", "s1"] 5] =
      ([("r1", "s1"), ("r1", "s2")], some "boom") :=
  claim_c8_error_aborts (fun _ sid => if sid = "s2" then some "boom" else none)
    [RegionResult.full "r1" 0 2 [] [] 5 5 ["s2", "s1"] 5]
    [("r1", "s1")] [] "r1" "s2" "boom" (by decide) (by decide) (by decide)

/-- C9: the end-of-run cost line is the fixed formula
`0.022 * 12 * total_orphaned_size`, a constant-price computation. -/
theorem claim_c9_cost (inputs : List RegionInput) :
    (runTotals inputs).2 =
      0.022 * 12 * ((aggregate inputs).2.totalOrphanedSize : ℚ) ∧
    ∀ n : Nat, estimatedAnnualCost n = (264 / 1000 : ℚ) * n := by
  refine ⟨rfl, fun n => ?_⟩
  rw [estimatedAnnualCost]
  norm_num

theorem dkeys_buildById (snaps : List Snapshot)
    (hnd : (snaps.map Snapshot.snapshotId).Nodup) :
    dkeys (buildSnapshotsById snaps) = snaps.map Snapshot.snapshotId := by
  rw [buildById_eq_map snaps hnd]
  simp [dkeys, List.map_map]

/-- C10: in a non-empty region result the orphaned ids are a subset of the
`snapshot_to_ami` keys, which are a subset of the `snapshots` keys; every
orphaned id can be looked up in `snapshots`; and the three size figures are
monotone. -/
theorem claim_c10_containment (region : String) (snaps : List Snapshot)
    (imgs : List Image) (hne : snaps ≠ [])
    (hnd : (snaps.map Snapshot.snapshotId).Nodup) :
    ((scanResult region snaps imgs).orphans ⊆
      dkeys ((scanResult region snaps imgs).s2a)) ∧
    (dkeys ((scanResult region snaps imgs).s2a) ⊆
      dkeys ((scanResult region snaps imgs).snapsById)) ∧
    (∀ sid ∈ (scanResult region snaps imgs).orphans,
      (dlook ((scanResult region snaps imgs).snapsById) sid).isSome = true) ∧
    (scanResult region snaps imgs).orphSize ≤
      (scanResult region snaps imgs).amiSize ∧
    (scanResult region snaps imgs).amiSize ≤
      (scanResult region snaps imgs).snapsSize := by
  rw [scanResult_of_ne region snaps imgs hne]
  simp only [RegionResult.orphans, RegionResult.s2a, RegionResult.snapsById,
    RegionResult.orphSize, RegionResult.amiSize, RegionResult.snapsSize]
  have hsub1 : orphansOf snaps imgs ⊆ dkeys (buildSnapshotToAmi snaps) :=
    (List.Sublist.map Prod.fst (List.filter_sublist _)).subset
  have hsub2 : dkeys (buildSnapshotToAmi snaps) ⊆
      dkeys (buildSnapshotsById snaps) := by
    intro k hk
    obtain ⟨s, hs, rfl, _⟩ := (mem_dkeys_buildS2A snaps k).mp hk
    rw [dkeys_buildById snaps hnd]
    exact List.mem_map.mpr ⟨s, hs, rfl⟩
  refine ⟨hsub1, hsub2, ?_, ?_, ?_⟩
  · intro sid hsid
    exact (dlook_isSome_iff _ _).mpr (hsub2 (hsub1 hsid))
  · rw [orphSizeOf,
      ← List.sum_toFinset _ (nodup_orphansOf snaps imgs),
      ← List.sum_toFinset _ (nodup_dkeys_buildS2A snaps)]
    apply Finset.sum_le_sum_of_subset
    intro x hx
    rw [List.mem_toFinset] at hx ⊢
    exact hsub1 hx
  · rw [← List.sum_toFinset _ (nodup_dkeys_buildS2A snaps)]
    have h1 : ((snaps.map Snapshot.snapshotId).toFinset).sum
        (fun sid => volOf (buildSnapshotsById snaps) sid) =
        ((snaps.map Snapshot.snapshotId).map
          (fun sid => volOf (buildSnapshotsById snaps) sid)).sum :=
      List.sum_toFinset _ hnd
    have h2 : ((snaps.map Snapshot.snapshotId).map
        (fun sid => volOf (buildSnapshotsById snaps) sid)).sum =
        (snaps.map Snapshot.volumeSize).sum := by
      rw [List.map_map]
      apply congrArg
      apply List.map_congr_left
      intro s hs
      simp only [Function.comp]
      rw [volOf, dlook_buildById snaps hnd hs]
    have h3 : ((dkeys (buildSnapshotToAmi snaps)).toFinset).sum
        (fun sid => volOf (buildSnapshotsById snaps) sid) ≤
          ((snaps.map Snapshot.snapshotId).toFinset).sum
          (fun sid => volOf (buildSnapshotsById snaps) sid) := by
      apply Finset.sum_le_sum_of_subset
      intro x hx
      rw [List.mem_toFinset] at hx ⊢
      exact (dkeys_buildById snaps hnd) ▸ hsub2 hx
    exact h3.trans (le_of_eq (h1.trans h2))

/-- C10 witness at a one-snapshot region. -/
theorem claim_c10_witness :
    ((scanResult "r1"
        [⟨"s1", "Created by CreateImage(i-1) for ami-1", 5, "t"⟩] []).orphans ⊆
      dkeys ((scanResult "r1"
        [⟨"s1", "Created by CreateImage(i-1) for ami-1", 5, "t"⟩] []).s2a)) ∧
    (dkeys ((scanResult "r1"
        [⟨"s1", "Created by CreateImage(i-1) for ami-1", 5, "t"⟩] []).s2a) ⊆
      dkeys ((scanResult "r1"
        [⟨"s1", "Created by CreateImage(i-1) for ami-1", 5, "t"⟩] []).snapsById)) ∧
    (∀ sid ∈ (scanResult "r1"
        [⟨"s1", "Created by CreateImage(i-1) for ami-1", 5, "t"⟩] []).orphans,
      (dlook ((scanResult "r1"
        [⟨"s1", "Created by CreateImage(i-1) for ami-1", 5, "t"⟩]
        []).snapsById) sid).isSome = true) ∧
    (scanResult "r1"
        [⟨"s1", "Created by CreateImage(i-1) for ami-1", 5, "t"⟩] []).orphSize ≤
      (scanResult "r1"
        [⟨"s1", "Created by CreateImage(i-1) for ami-1", 5, "t"⟩] []).amiSize ∧
    (scanResult "r1"
        [⟨"s1", "Created by CreateImage(i-1) for ami-1", 5, "t"⟩] []).amiSize ≤
      (scanResult "r1"
        [⟨"s1", "Created by CreateImage(i-1) for ami-1", 5, "t"⟩] []).snapsSize :=
  claim_c10_containment "r1"
    [⟨"s1", "Created by CreateImage(i-1) for ami-1", 5, "t"⟩] []
    (by decide) (by decide)
